import Mathlib

/-
Shallow embedding of the elysia file-storage service
(src/services/storage.ts, src/services/image.ts, src/utils/helpers.ts,
src/types.ts, src/routes/files.ts).

Modelling conventions:
* JS `Map<string, FileMetadata>` becomes an insertion-ordered association
  list `Store := List (String × FileMetadata)`; `Map.set` replaces in
  place or appends, `Map.delete` removes the unique entry with that key.
* Timestamps (`Date.now()`) are naturals passed in explicitly.
* Disk and image effects are modelled by explicit environments: an upload
  records the list of paths written (`writes`), `unlink` success is a
  boolean function of the path, the sharp transform pipeline is an
  abstract deterministic function parameter.
* JS string primitives (`toLowerCase`, `includes`, `startsWith`,
  `split('.')`) are re-implemented by structural recursion on the
  character list so that every definition evaluates inside the kernel.
  `toLowerCase` is modelled per-character (ASCII case mapping), which
  agrees with JS on the ASCII strings that occur here.
* JS truthiness tests on numbers (`expiresAt &&`, `expiresIn ?`,
  `maxWidth ||`) treat 0 like absence; the embedding reproduces that.
-/

namespace Elysia

/-- Splitting a character list at every occurrence of a separator
character; models `String.prototype.split` with a one-character
separator, e.g. `"a.b".split('.') = ["a","b"]`. -/
def splitOnChar (c : Char) : List Char → List (List Char)
  | [] => [[]]
  | x :: xs =>
    let r := splitOnChar c xs
    if x == c then [] :: r
    else
      match r with
      | [] => [[x]]
      | g :: gs => (x :: g) :: gs

/-- Lower-casing a string character by character; models
`String.prototype.toLowerCase` on the ASCII strings used here. -/
def jsToLower (s : String) : String :=
  ⟨s.data.map Char.toLower⟩

/-- Boolean test that the first list is an initial segment of the
second. -/
def charsInitSeg : List Char → List Char → Bool
  | [], _ => true
  | _ :: _, [] => false
  | p :: ps, x :: xs => p == x && charsInitSeg ps xs

/-- Models `String.prototype.startsWith`. -/
def jsStartsWith (s pat : String) : Bool :=
  charsInitSeg pat.data s.data

/-- Boolean substring test on character lists. -/
def charsSubstring (sub : List Char) : List Char → Bool
  | [] => sub.isEmpty
  | x :: xs => charsInitSeg sub (x :: xs) || charsSubstring sub xs

/-- Models `String.prototype.includes`. -/
def strIncludes (s sub : String) : Bool :=
  charsSubstring sub.data s.data

/-- Boolean membership of a string in a list of strings. -/
def keyMem (k : String) : List String → Bool
  | [] => false
  | x :: xs => if x = k then true else keyMem k xs

/-- Joining a list of strings with a separator; models
`Array.prototype.join`. -/
def joinSep (sep : String) : List String → String
  | [] => ""
  | [x] => x
  | x :: xs => x ++ sep ++ joinSep sep xs

/-- File categories, the closed enum of src/types.ts. -/
inductive FileCategory
  | images
  | documents
  | videos
  | audio
  | others
deriving DecidableEq, Repr, Inhabited

/-- File record, the `FileMetadata` interface of src/types.ts.
Optional TS fields become `Option`. -/
structure FileMetadata where
  id : String
  originalName : String
  fileName : String
  mimeType : String
  size : Nat
  category : FileCategory
  path : String
  url : String
  thumbnailUrl : Option String
  width : Option Nat
  height : Option Nat
  uploadedAt : Nat
  expiresAt : Option Nat
  downloads : Nat
  isPublic : Bool
  checksum : String
  tags : Option (List String)
deriving DecidableEq, Repr, Inhabited

/-- The in-memory metadata store: the insertion-ordered entry list of the
JS `Map<string, FileMetadata>`. -/
abbrev Store := List (String × FileMetadata)

/-- Models `Map.get`. -/
def Store.lookup : Store → String → Option FileMetadata
  | [], _ => none
  | kv :: rest, id => if kv.1 = id then some kv.2 else Store.lookup rest id

/-- Models `Map.set`: replace the entry in place when the key is present,
append otherwise. -/
def Store.set : Store → String → FileMetadata → Store
  | [], id, v => [(id, v)]
  | kv :: rest, id, v =>
    if kv.1 = id then (id, v) :: rest else kv :: Store.set rest id v

/-- Models `Map.delete`. -/
def Store.eraseKey : Store → String → Store
  | [], _ => []
  | kv :: rest, id =>
    if kv.1 = id then Store.eraseKey rest id
    else kv :: Store.eraseKey rest id

/-- Replacing the value stored under a key, keeping the entry position;
models the in-place mutation of a record obtained from the map. -/
def Store.replace : Store → String → FileMetadata → Store
  | [], _, _ => []
  | kv :: rest, id, v =>
    if kv.1 = id then (kv.1, v) :: Store.replace rest id v
    else kv :: Store.replace rest id v

/-- Expiration test `metadata.expiresAt && metadata.expiresAt < now`
(storage.ts). A JS `expiresAt` of 0 is falsy, hence treated as unset. -/
def isExpired (now : Nat) (m : FileMetadata) : Bool :=
  match m.expiresAt with
  | none => false
  | some e => e != 0 && decide (e < now)

/-- MIME to category mapping, `getFileCategory` of helpers.ts. -/
def getFileCategory (mimeType : String) : FileCategory :=
  if jsStartsWith mimeType "image/" then .images
  else if jsStartsWith mimeType "video/" then .videos
  else if jsStartsWith mimeType "audio/" then .audio
  else if mimeType == "application/pdf"
       || strIncludes mimeType "document"
       || strIncludes mimeType "text"
       || strIncludes mimeType "spreadsheet"
       || strIncludes mimeType "presentation" then .documents
  else .others

/-- Extension extraction, `getExtension` of helpers.ts:
`filename.split('.')`, last part lower-cased when there is one. -/
def getExtension (filename : String) : String :=
  let parts := splitOnChar '.' filename.data
  if parts.length > 1 then jsToLower ⟨parts.getLastD []⟩ else ""

/-- Image MIME test, `isImage` of helpers.ts. -/
def isImage (mimeType : String) : Bool :=
  jsStartsWith mimeType "image/"

/-- Per-category size ceilings in bytes, `MAX_SIZES` of helpers.ts. -/
def MAX_SIZES : FileCategory → Nat
  | .images => 10 * 1024 * 1024
  | .documents => 50 * 1024 * 1024
  | .videos => 500 * 1024 * 1024
  | .audio => 50 * 1024 * 1024
  | .others => 25 * 1024 * 1024

/-- Per-category MIME allow-lists, `ALLOWED_TYPES` of helpers.ts; the
empty list for `others` means any type is accepted. -/
def ALLOWED_TYPES : FileCategory → List String
  | .images =>
      ["image/jpeg", "image/png", "image/gif", "image/webp",
       "image/svg+xml", "image/avif"]
  | .documents =>
      ["application/pdf", "application/msword",
       "application/vnd.openxmlformats-officedocument.wordprocessingml.document",
       "application/vnd.ms-excel",
       "application/vnd.openxmlformats-officedocument.spreadsheetml.sheet",
       "application/vnd.ms-powerpoint",
       "application/vnd.openxmlformats-officedocument.presentationml.presentation",
       "text/plain", "text/csv", "text/markdown"]
  | .videos =>
      ["video/mp4", "video/webm", "video/ogg", "video/quicktime",
       "video/x-msvideo"]
  | .audio =>
      ["audio/mpeg", "audio/wav", "audio/ogg", "audio/webm", "audio/aac",
       "audio/flac"]
  | .others => []

/-- Validation outcome of `validateFile` (helpers.ts). The source
formats the size ceiling into the message with floating-point
`formatBytes`; no claim inspects the message text, so the message here
carries the category name only. -/
structure ValidationResult where
  valid : Bool
  error : Option String
deriving DecidableEq, Repr

/-- Category name as used in URLs, directories and messages. -/
def categoryDir : FileCategory → String
  | .images => "images"
  | .documents => "documents"
  | .videos => "videos"
  | .audio => "audio"
  | .others => "others"

/-- Policy check `validateFile(mimeType, size)` of helpers.ts: size
ceiling first, then the per-category allow-list (skipped when the list
is empty, i.e. for `others`). -/
def validateFile (mimeType : String) (size : Nat) : ValidationResult :=
  let category := getFileCategory mimeType
  let maxSize := MAX_SIZES category
  if size > maxSize then
    { valid := false,
      error := some ("File size exceeds maximum allowed for "
                      ++ categoryDir category) }
  else
    let allowedTypes := ALLOWED_TYPES category
    if allowedTypes.length > 0 && !(keyMem mimeType allowedTypes) then
      { valid := false,
        error := some ("File type " ++ mimeType ++ " is not allowed for "
                        ++ categoryDir category) }
    else { valid := true, error := none }

/-- Disk environment for deletion: which `unlink` calls succeed. In the
source the thumbnail unlink is wrapped in its own try/catch and
`imageService.clearCache` swallows every error internally, so only the
main-file unlink can make `deleteFile` fail; the environment therefore
only needs the unlink outcome per path. -/
structure DiskEnv where
  unlinkOk : String → Bool

/-- Deletion, `StorageService.deleteFile`: look the record up, try to
unlink the main file — on failure the catch block returns `false`
without touching the store — otherwise best-effort thumbnail/cache
cleanup (failures swallowed) and removal of the record. -/
def deleteFile (env : DiskEnv) (st : Store) (id : String) : Bool × Store :=
  match Store.lookup st id with
  | none => (false, st)
  | some metadata =>
    if env.unlinkOk metadata.path then
      (true, Store.eraseKey st id)
    else
      (false, st)

/-- Lookup, `StorageService.getFile`: a bare `this.files.get(id)` with no
expiration check. -/
def getFile (st : Store) (id : String) : Option FileMetadata :=
  Store.lookup st id

/-- Content read, `StorageService.getFileContent`: absent record gives
null; an expired record is deleted and gives null; otherwise the
download counter is incremented and the path plus updated record
returned. -/
def getFileContent (env : DiskEnv) (now : Nat) (st : Store) (id : String) :
    Option (String × FileMetadata) × Store :=
  match Store.lookup st id with
  | none => (none, st)
  | some metadata =>
    if isExpired now metadata then
      (none, (deleteFile env st id).2)
    else
      let m2 := { metadata with downloads := metadata.downloads + 1 }
      (some (metadata.path, m2), Store.replace st id m2)

/-- Uploaded file as handed to `upload`: name, declared content type
(empty string models a missing `file.type`), raw bytes. `file.size` is
the byte count. -/
structure MFile where
  name : String
  ftype : String
  bytes : List Nat
deriving DecidableEq, Repr

/-- Upload options of src/types.ts (all optional in TS). -/
structure UploadOptions where
  generateThumbnail : Option Bool := none
  maxWidth : Option Nat := none
  maxHeight : Option Nat := none
  quality : Option Nat := none
  isPublic : Option Bool := none
  expiresIn : Option Nat := none
  tags : Option (List String) := none
deriving DecidableEq, Repr

/-- Environment of one `upload` call: the extension-based MIME lookup of
the external mime-types package, the SHA-256 checksum as an abstract
deterministic function of the bytes, the generated nanoid, `Date.now()`,
and the outcomes of the sharp calls (dimension probe, thumbnail
generation, resize transform and the dimension probe after it; `none`
models the call throwing). -/
structure UploadEnv where
  mimeLookup : String → Option String
  chk : List Nat → String
  freshId : String
  now : Nat
  imgDims : Option (Nat × Nat)
  thumbOk : Bool
  resizedBuf : Option (List Nat)
  resizedDims : Option (Nat × Nat)

/-- Effective MIME type:
`file.type || lookup(file.name) || 'application/octet-stream'`. -/
def resolveMime (env : UploadEnv) (f : MFile) : String :=
  if f.ftype != "" then f.ftype
  else
    match env.mimeLookup f.name with
    | some m => m
    | none => "application/octet-stream"

/-- Duplicate scan of `upload`: first record in insertion order whose
checksum matches (expired records are not filtered out). -/
def findByChecksum : Store → String → Option FileMetadata
  | [], _ => none
  | kv :: rest, c =>
    if kv.2.checksum = c then some kv.2 else findByChecksum rest c

/-- Base URL constant (default of the BASE_URL environment variable). -/
def baseUrl : String := "http://localhost:3000"

/-- Result of one `upload` call: the thrown-error-or-record result, the
store afterwards, and the on-disk paths written, in write order. -/
structure UploadOutcome where
  result : Except String FileMetadata
  store : Store
  writes : List String
deriving Repr

/-- JS truthiness of an optional number: undefined and 0 are falsy. -/
def truthyNat : Option Nat → Bool
  | none => false
  | some n => n != 0

/-- Upload, `StorageService.upload`, in source order: resolve the MIME
type, validate (reject before any I/O), generate id/paths, checksum the
bytes, scan for a duplicate checksum and return the existing record
unchanged on a hit, otherwise write the bytes, run the image branch
(dimensions, thumbnail, optional resize — each failure non-fatal),
construct the record and commit it to the store. -/
def upload (env : UploadEnv) (f : MFile) (opts : UploadOptions) (st : Store) :
    UploadOutcome :=
  let mimeType := resolveMime env f
  let size := f.bytes.length
  let validation := validateFile mimeType size
  if validation.valid = false then
    { result := Except.error (validation.error.getD "invalid"),
      store := st, writes := [] }
  else
    let id := env.freshId
    let category := getFileCategory mimeType
    let ext := getExtension f.name
    let fileName := id ++ "." ++ ext
    let filePath := "uploads/" ++ categoryDir category ++ "/" ++ fileName
    let checksum := env.chk f.bytes
    match findByChecksum st checksum with
    | some meta =>
      { result := Except.ok meta, store := st, writes := [] }
    | none =>
      let wh0 : Option (Nat × Nat) :=
        if isImage mimeType then env.imgDims else none
      let thumb : Option String × List String :=
        if isImage mimeType && !(opts.generateThumbnail == some false) then
          if env.thumbOk then
            (some (baseUrl ++ "/cdn/thumb/" ++ id),
             ["uploads/thumbnails/" ++ id ++ ".jpg"])
          else (none, [])
        else (none, [])
      let resize : List String × Option (Nat × Nat) :=
        if isImage mimeType
           && (truthyNat opts.maxWidth || truthyNat opts.maxHeight) then
          match env.resizedBuf with
          | none => ([], wh0)
          | some _ =>
            ([filePath],
             match env.resizedDims with
             | none => wh0
             | some d => some d)
        else ([], wh0)
      let metadata : FileMetadata :=
        { id := id
          originalName := f.name
          fileName := fileName
          mimeType := mimeType
          size := size
          category := category
          path := filePath
          url := baseUrl ++ "/cdn/" ++ id
          thumbnailUrl := thumb.1
          width := resize.2.map Prod.fst
          height := resize.2.map Prod.snd
          uploadedAt := env.now
          expiresAt :=
            if truthyNat opts.expiresIn then
              some (env.now + (opts.expiresIn.getD 0) * 1000)
            else none
          downloads := 0
          isPublic := opts.isPublic.getD true
          checksum := checksum
          tags := opts.tags }
      { result := Except.ok metadata,
        store := Store.set st id metadata,
        writes := [filePath] ++ thumb.2 ++ resize.1 }

/-- Loop body of the expiration sweep: iterate over the entry snapshot,
delete each expired record through `deleteFile` and count it (the
counter is incremented whether or not the delete succeeded, exactly as
in the source). -/
def cleanupLoop (env : DiskEnv) (now : Nat) :
    List (String × FileMetadata) → Nat × Store → Nat × Store
  | [], acc => acc
  | kv :: rest, (n, s) =>
    if isExpired now kv.2 then
      cleanupLoop env now rest (n + 1, (deleteFile env s kv.1).2)
    else
      cleanupLoop env now rest (n, s)

/-- Sweep, `StorageService.cleanupExpired`: `Date.now()` captured once,
every record iterated, expired ones deleted via `deleteFile`, count
returned. -/
def cleanupExpired (env : DiskEnv) (now : Nat) (st : Store) : Nat × Store :=
  cleanupLoop env now st (0, st)

/-- Update patch, `Partial<Pick<FileMetadata, 'isPublic'|'tags'|'expiresAt'>>`:
`none` models a field passed as undefined. -/
structure UpdatePatch where
  isPublic : Option Bool := none
  tags : Option (List String) := none
  expiresAt : Option Nat := none
deriving DecidableEq, Repr

/-- Patch application inside `updateFile`: the three guarded field
assignments, in source order. -/
def applyPatch (metadata : FileMetadata) (u : UpdatePatch) : FileMetadata :=
  let m1 := match u.isPublic with
            | some b => { metadata with isPublic := b }
            | none => metadata
  let m2 := match u.tags with
            | some ts => { m1 with tags := some ts }
            | none => m1
  match u.expiresAt with
  | some e => { m2 with expiresAt := some e }
  | none => m2

/-- Update, `StorageService.updateFile`: each of the three fields is
overwritten only when the patch carries a defined value; the record is
mutated in place in the map. -/
def updateFile (st : Store) (id : String) (u : UpdatePatch) :
    Option FileMetadata × Store :=
  match Store.lookup st id with
  | none => (none, st)
  | some metadata =>
    (some (applyPatch metadata u), Store.replace st id (applyPatch metadata u))

/-- Sort keys of `ListFilesParams`. -/
inductive SortBy
  | uploadedAt
  | size
  | originalName
  | downloads
deriving DecidableEq, Repr

/-- Sort directions. -/
inductive SortOrder
  | asc
  | desc
deriving DecidableEq, Repr

/-- Category filter: a concrete category or the `all` bypass. -/
inductive CategoryFilter
  | all
  | cat (c : FileCategory)
deriving DecidableEq, Repr

/-- Query parameters of `listFiles`; every field is optional and
defaulted inside `listFiles`, as in the source destructuring. -/
structure ListFilesParams where
  page : Option Nat := none
  limit : Option Nat := none
  category : Option CategoryFilter := none
  search : Option String := none
  sortBy : Option SortBy := none
  sortOrder : Option SortOrder := none
deriving DecidableEq, Repr

/-- Result envelope of `listFiles`. -/
structure ListFilesResult where
  files : List FileMetadata
  total : Nat
  page : Nat
  totalPages : Nat
deriving DecidableEq, Repr

/-- Ascending comparator of the sort in `listFiles` as a boolean
pre-order: `a` may precede `b` iff the requested key of `a` is at most
that of `b`, string keys compared lower-cased. -/
def jsSortLE (sb : SortBy) (a b : FileMetadata) : Bool :=
  match sb with
  | .uploadedAt => decide (a.uploadedAt ≤ b.uploadedAt)
  | .size => decide (a.size ≤ b.size)
  | .originalName => decide (jsToLower a.originalName ≤ jsToLower b.originalName)
  | .downloads => decide (a.downloads ≤ b.downloads)

/-- Stable insertion of an element into a sorted list: the new element
goes before the first existing element it is `le`-below-or-tied-with.
Inserting the earlier element into the sorted suffix of later elements
keeps ties in original order, matching the stable JS `Array.sort`. -/
def insertS (le : FileMetadata → FileMetadata → Bool) (a : FileMetadata) :
    List FileMetadata → List FileMetadata
  | [] => [a]
  | b :: bs => if le a b then a :: b :: bs else b :: insertS le a bs

/-- Stable insertion sort. JS `Array.prototype.sort` is required to be
stable, and for the consistent comparator used in `listFiles` the stable
sorted permutation is unique, so this is observably the same function. -/
def insertionSort (le : FileMetadata → FileMetadata → Bool) :
    List FileMetadata → List FileMetadata
  | [] => []
  | a :: as => insertS le a (insertionSort le as)

/-- The sort of `listFiles`: ascending by the comparator, or with the
comparator flipped for `desc`. -/
def jsSort (sb : SortBy) (so : SortOrder) (l : List FileMetadata) :
    List FileMetadata :=
  match so with
  | .asc => insertionSort (fun a b => jsSortLE sb a b) l
  | .desc => insertionSort (fun a b => jsSortLE sb b a) l

/-- Filter and sort stages of `listFiles` (everything before
pagination): category filter, case-insensitive substring search over
`originalName` and tags, then the sort. No expiration filter appears
here, exactly as in the source. -/
def queryPipeline (p : ListFilesParams) (st : Store) : List FileMetadata :=
  let category := p.category.getD .all
  let search := p.search.getD ""
  let sb := p.sortBy.getD .uploadedAt
  let so := p.sortOrder.getD .desc
  let arr := st.map Prod.snd
  let arr :=
    match category with
    | .all => arr
    | .cat c => arr.filter (fun f => decide (f.category = c))
  let arr :=
    if search == "" then arr
    else
      let searchLower := jsToLower search
      arr.filter (fun f =>
        strIncludes (jsToLower f.originalName) searchLower
        || (f.tags.getD []).any (fun t => strIncludes (jsToLower t) searchLower))
  jsSort sb so arr

/-- Listing, `StorageService.listFiles`: defaults, filter, sort, then
1-indexed pagination with `totalPages = Math.ceil(total / limit)`
(written as its natural-number form, valid for `limit > 0`) and
`slice(start, start + limit)`. -/
def listFiles (p : ListFilesParams) (st : Store) : ListFilesResult :=
  let page := p.page.getD 1
  let limit := p.limit.getD 20
  let sorted := queryPipeline p st
  let total := sorted.length
  let totalPages := (total + limit - 1) / limit
  let start := (page - 1) * limit
  { files := (sorted.drop start).take limit
    total := total
    page := page
    totalPages := totalPages }

/-- Output formats of the transform descriptor. -/
inductive ImgFormat
  | jpeg
  | png
  | webp
  | avif
deriving DecidableEq, Repr

/-- Fit policies of the transform descriptor. -/
inductive ImgFit
  | cover
  | contain
  | fill
  | inside
  | outside
deriving DecidableEq, Repr

/-- Transform descriptor, `ImageTransformOptions` of src/types.ts. -/
structure ImageTransformOptions where
  width : Option Nat := none
  height : Option Nat := none
  quality : Option Nat := none
  format : Option ImgFormat := none
  fit : Option ImgFit := none
  blur : Option Nat := none
  grayscale : Option Bool := none
deriving DecidableEq, Repr

/-- String value of a format, as serialized by JS. -/
def imgFormatStr : ImgFormat → String
  | .jpeg => "jpeg"
  | .png => "png"
  | .webp => "webp"
  | .avif => "avif"

/-- String value of a fit policy, as serialized by JS. -/
def imgFitStr : ImgFit → String
  | .cover => "cover"
  | .contain => "contain"
  | .fill => "fill"
  | .inside => "inside"
  | .outside => "outside"

/-- Cache key, `generateCacheKey` of helpers.ts: the defined descriptor
fields as `key=value` pairs, sorted by field name (the sorted order of
the seven fixed field names is written out literally here), joined with
underscores and prefixed with the file id. -/
def generateCacheKey (fileId : String) (o : ImageTransformOptions) : String :=
  let entries : List (Option String) :=
    [o.blur.map (fun n => "blur=" ++ toString n),
     o.fit.map (fun v => "fit=" ++ imgFitStr v),
     o.format.map (fun v => "format=" ++ imgFormatStr v),
     o.grayscale.map (fun b => "grayscale=" ++ (if b then "true" else "false")),
     o.height.map (fun n => "height=" ++ toString n),
     o.quality.map (fun n => "quality=" ++ toString n),
     o.width.map (fun n => "width=" ++ toString n)]
  fileId ++ "_" ++ joinSep "_" (entries.filterMap id)

/-- Derived bytes. -/
abbrev Bytes := List Nat

/-- Durable artifact cache directory as a path-to-bytes association. -/
abbrev CacheFS := List (String × Bytes)

/-- Lookup of a cached artifact by path. -/
def cacheLookup : CacheFS → String → Option Bytes
  | [], _ => none
  | kv :: rest, p => if kv.1 = p then some kv.2 else cacheLookup rest p

/-- Cache path of one transform artifact inside
`ImageService.getCachedTransform`. -/
def transformCachePath (fileId : String) (o : ImageTransformOptions) : String :=
  "cache/" ++ generateCacheKey fileId o ++ "." ++ imgFormatStr (o.format.getD .jpeg)

/-- Memoized transform, `ImageService.getCachedTransform`: return the
durable artifact with `cached = true` when it exists, otherwise run the
(black-box, deterministic) transform pipeline, persist the result under
the computed key and return it with `cached = false`. -/
def getCachedTransform (transformFn : String → ImageTransformOptions → Bytes)
    (fileId inputPath : String) (o : ImageTransformOptions) (cache : CacheFS) :
    (Bytes × Bool) × CacheFS :=
  let cachePath := transformCachePath fileId o
  match cacheLookup cache cachePath with
  | some buf => ((buf, true), cache)
  | none =>
    let buf := transformFn inputPath o
    ((buf, false), (cachePath, buf) :: cache)

/-- Sample record for concrete evaluations: a plain-text record with the
given id, checksum and expiry. -/
def sampleRec (id checksum : String) (expiresAt : Option Nat) : FileMetadata :=
  { id := id
    originalName := id ++ ".txt"
    fileName := id ++ ".txt"
    mimeType := "text/plain"
    size := 3
    category := .documents
    path := "uploads/documents/" ++ id ++ ".txt"
    url := baseUrl ++ "/cdn/" ++ id
    thumbnailUrl := none
    width := none
    height := none
    uploadedAt := 1
    expiresAt := expiresAt
    downloads := 0
    isPublic := true
    checksum := checksum
    tags := none }

/-- Disk environment in which every unlink succeeds. -/
def allUnlinkOk : DiskEnv := { unlinkOk := fun _ => true }

/-- Disk environment in which every unlink fails. -/
def noUnlinkOk : DiskEnv := { unlinkOk := fun _ => false }

/-- Sample upload environment: constant checksum function, fixed fresh
id, no image processing. -/
def sampleUploadEnv (idv checksum : String) : UploadEnv :=
  { mimeLookup := fun _ => none
    chk := fun _ => checksum
    freshId := idv
    now := 1000
    imgDims := none
    thumbOk := true
    resizedBuf := none
    resizedDims := none }

/-- Sample plain-text upload. -/
def sampleTextFile : MFile :=
  { name := "Notes.TXT", ftype := "text/plain", bytes := [1, 2, 3] }

/-- Keys of the expired entries of a store snapshot, in order; used to
describe the net effect of the expiration sweep. -/
def expiredKeys (now : Nat) (l : Store) : List String :=
  (l.filter (fun kv => isExpired now kv.2)).map Prod.fst

/-- Three-record store used by the pagination witness. -/
def pagStore : Store :=
  [("a", sampleRec "a" "k1" none), ("b", sampleRec "b" "k2" none),
   ("c", sampleRec "c" "k3" none)]

/-- Sample upload with a disallowed image MIME type. -/
def tiffFile : MFile :=
  { name := "x.tiff", ftype := "image/tiff", bytes := [0] }

/-- Outcome of a first sample upload into the empty store. -/
def firstUploadOutcome : UploadOutcome :=
  upload (sampleUploadEnv "idA" "deadbeef") sampleTextFile {} []

/-- The record created by that first sample upload. -/
def firstUploadRecord : FileMetadata :=
  match firstUploadOutcome.result with
  | .ok m => m
  | .error _ => default

/-! Helper lemmas about the store. -/

theorem Store.lookup_eraseKey_ne (st : Store) (k k2 : String) (h : k2 ≠ k) :
    Store.lookup (Store.eraseKey st k) k2 = Store.lookup st k2 := by
  induction st with
  | nil => rfl
  | cons kv rest ih =>
    by_cases hk : kv.1 = k
    · have hk2 : ¬ kv.1 = k2 := by
        rw [hk]
        exact fun he => h he.symm
      rw [Store.eraseKey, if_pos hk, Store.lookup, if_neg hk2]
      exact ih
    · rw [Store.eraseKey, if_neg hk]
      by_cases hk2 : kv.1 = k2
      · rw [Store.lookup, if_pos hk2, Store.lookup, if_pos hk2]
      · rw [Store.lookup, if_neg hk2, Store.lookup, if_neg hk2]
        exact ih

theorem Store.lookup_of_mem (st : Store) (hnd : (st.map Prod.fst).Nodup)
    (kv : String × FileMetadata) (h : kv ∈ st) :
    Store.lookup st kv.1 = some kv.2 := by
  induction st with
  | nil => cases h
  | cons hd rest ih =>
    rcases List.mem_cons.mp h with rfl | hmem
    · simp [Store.lookup]
    · simp only [List.map_cons, List.nodup_cons] at hnd
      have hne : hd.1 ≠ kv.1 := by
        intro he
        exact hnd.1 (he ▸ List.mem_map_of_mem Prod.fst hmem)
      simp only [Store.lookup, hne, if_neg, not_false_iff]
      exact ih hnd.2 hmem

theorem Store.mem_of_key_distinct (st : Store) (hnd : (st.map Prod.fst).Nodup)
    (kv kv2 : String × FileMetadata) (h : kv ∈ st) (h2 : kv2 ∈ st)
    (hk : kv.1 = kv2.1) : kv = kv2 :=
  List.inj_on_of_nodup_map hnd h h2 hk

theorem Store.lookup_replace_self (st : Store) (id : String)
    (v m : FileMetadata) (h : Store.lookup st id = some m) :
    Store.lookup (Store.replace st id v) id = some v := by
  induction st with
  | nil => simp [Store.lookup] at h
  | cons kv rest ih =>
    by_cases hk : kv.1 = id
    · rw [Store.replace, if_pos hk, Store.lookup, if_pos hk]
    · rw [Store.lookup, if_neg hk] at h
      rw [Store.replace, if_neg hk, Store.lookup, if_neg hk]
      exact ih h

theorem Store.lookup_replace_ne (st : Store) (id : String) (v : FileMetadata)
    (k2 : String) (h : k2 ≠ id) :
    Store.lookup (Store.replace st id v) k2 = Store.lookup st k2 := by
  induction st with
  | nil => rfl
  | cons kv rest ih =>
    by_cases hk : kv.1 = id
    · have hk2 : ¬ kv.1 = k2 := by
        rw [hk]
        exact fun he => h he.symm
      rw [Store.replace, if_pos hk, Store.lookup, if_neg hk2,
        Store.lookup, if_neg hk2]
      exact ih
    · rw [Store.replace, if_neg hk]
      by_cases hk2 : kv.1 = k2
      · rw [Store.lookup, if_pos hk2, Store.lookup, if_pos hk2]
      · rw [Store.lookup, if_neg hk2, Store.lookup, if_neg hk2]
        exact ih

/-! Helper lemmas about the duplicate scan. -/

theorem findByChecksum_checksum (st : Store) (c : String) (m : FileMetadata)
    (h : findByChecksum st c = some m) : m.checksum = c := by
  induction st with
  | nil => simp [findByChecksum] at h
  | cons kv rest ih =>
    by_cases hc : kv.2.checksum = c
    · simp only [findByChecksum, hc, if_pos, Option.some_inj] at h
      rw [← h, hc]
    · simp only [findByChecksum, hc, if_neg, not_false_iff] at h
      exact ih h

theorem findByChecksum_set_of_none (st : Store) (c : String) (k : String)
    (m : FileMetadata) (hnone : findByChecksum st c = none)
    (hc : m.checksum = c) :
    findByChecksum (Store.set st k m) c = some m := by
  induction st with
  | nil => simp [Store.set, findByChecksum, hc]
  | cons kv rest ih =>
    have hkv : kv.2.checksum ≠ c := by
      intro hx
      simp [findByChecksum, hx] at hnone
    simp only [findByChecksum, hkv, if_neg, not_false_iff] at hnone
    by_cases hk : kv.1 = k
    · simp [Store.set, hk, findByChecksum, hc]
    · simp only [Store.set, hk, if_neg, not_false_iff]
      simp only [findByChecksum, hkv, if_neg, not_false_iff]
      exact ih hnone

theorem keyMem_eq_false_iff (k : String) (l : List String) :
    keyMem k l = false ↔ k ∉ l := by
  induction l with
  | nil => simp [keyMem]
  | cons x xs ih =>
    by_cases hx : x = k
    · simp [keyMem, hx]
    · have hx2 : ¬ k = x := fun he => hx he.symm
      simp [keyMem, hx, hx2, ih]

/-- C1 (code bug): a record whose `expiresAt` (5) lies before now (10)
is reported by `getFile`, and is included — with its total counted — by
`listFiles`, while the content-read path `getFileContent` correctly
treats it as absent and evicts it; the lazy expiration check is missing
from the first two read paths. -/
theorem expired_record_visible_to_getFile_and_listFiles :
    isExpired 10 (sampleRec "a" "c1" (some 5)) = true
  ∧ getFile [("a", sampleRec "a" "c1" (some 5))] "a"
      = some (sampleRec "a" "c1" (some 5))
  ∧ (listFiles {} [("a", sampleRec "a" "c1" (some 5))]).total = 1
  ∧ (listFiles {} [("a", sampleRec "a" "c1" (some 5))]).files
      = [sampleRec "a" "c1" (some 5)]
  ∧ (getFileContent allUnlinkOk 10 [("a", sampleRec "a" "c1" (some 5))] "a").1
      = none
  ∧ (getFileContent allUnlinkOk 10 [("a", sampleRec "a" "c1" (some 5))] "a").2
      = [] :=
  ⟨rfl, rfl, rfl, rfl, rfl, rfl⟩

/-- C2 (code bug): when the disk unlink of the main file fails,
`deleteFile` reports failure and leaves the record in the store, instead
of still removing the record and reporting success as specified. -/
theorem deleteFile_unlink_failure_keeps_record :
    Store.lookup [("a", sampleRec "a" "c2" none)] "a"
      = some (sampleRec "a" "c2" none)
  ∧ deleteFile noUnlinkOk [("a", sampleRec "a" "c2" none)] "a"
      = (false, [("a", sampleRec "a" "c2" none)]) :=
  ⟨rfl, rfl⟩

/-- C4 (code bug): the duplicate scan of `upload` matches an expired
record: an upload whose checksum equals that of a record with
`expiresAt` (5) before now (1000) short-circuits to the expired record,
writes nothing and creates no new record, instead of proceeding to
write bytes and create a fresh record. -/
theorem upload_dedups_against_expired_record :
    isExpired 1000 (sampleRec "old" "dup" (some 5)) = true
  ∧ (upload (sampleUploadEnv "idC" "dup") sampleTextFile {}
        [("old", sampleRec "old" "dup" (some 5))]).result
      = Except.ok (sampleRec "old" "dup" (some 5))
  ∧ (upload (sampleUploadEnv "idC" "dup") sampleTextFile {}
        [("old", sampleRec "old" "dup" (some 5))]).store
      = [("old", sampleRec "old" "dup" (some 5))]
  ∧ (upload (sampleUploadEnv "idC" "dup") sampleTextFile {}
        [("old", sampleRec "old" "dup" (some 5))]).writes = [] :=
  ⟨rfl, rfl, rfl, rfl⟩

/-- C6: an upload whose MIME type or size violates the per-category
policy — size above the category ceiling of `MAX_SIZES`, or a type
outside the non-empty allow-list of `ALLOWED_TYPES` — fails validation
and is rejected with an error before any side effect: no path is
written and the store is unchanged. -/
theorem upload_rejects_policy_violation
    (env : UploadEnv) (f : MFile) (opts : UploadOptions) (st : Store)
    (hviol :
      f.bytes.length > MAX_SIZES (getFileCategory (resolveMime env f))
      ∨ ((ALLOWED_TYPES (getFileCategory (resolveMime env f))).length > 0
         ∧ resolveMime env f ∉ ALLOWED_TYPES (getFileCategory (resolveMime env f)))) :
    (validateFile (resolveMime env f) f.bytes.length).valid = false
  ∧ (∃ msg, (upload env f opts st).result = Except.error msg)
  ∧ (upload env f opts st).store = st
  ∧ (upload env f opts st).writes = [] := by
  have hval : (validateFile (resolveMime env f) f.bytes.length).valid = false := by
    rcases hviol with hsz | ⟨hlen, hmem⟩
    · simp [validateFile, hsz]
    · by_cases hsz : f.bytes.length > MAX_SIZES (getFileCategory (resolveMime env f))
      · simp [validateFile, hsz]
      · have hkm : keyMem (resolveMime env f)
            (ALLOWED_TYPES (getFileCategory (resolveMime env f))) = false :=
          (keyMem_eq_false_iff _ _).mpr hmem
        simp [validateFile, hsz, hlen, hkm]
  refine ⟨hval, ⟨(validateFile (resolveMime env f) f.bytes.length).error.getD "invalid", ?_⟩, ?_, ?_⟩ <;>
    simp [upload, hval]

/-- Witness for C6: a 1-byte `image/tiff` upload is outside the image
allow-list, so it is rejected with no write and no store change. -/
theorem upload_rejects_policy_violation_witness :
    (validateFile (resolveMime (sampleUploadEnv "idB" "h1") tiffFile)
        tiffFile.bytes.length).valid = false
  ∧ (∃ msg, (upload (sampleUploadEnv "idB" "h1") tiffFile {} []).result
        = Except.error msg)
  ∧ (upload (sampleUploadEnv "idB" "h1") tiffFile {} []).store = []
  ∧ (upload (sampleUploadEnv "idB" "h1") tiffFile {} []).writes = [] :=
  upload_rejects_policy_violation (sampleUploadEnv "idB" "h1") tiffFile {} []
    (Or.inr ⟨by decide, by decide⟩)

/-- C9: with no artifact cached under the computed key, the first
`getCachedTransform` call reports a miss, the second call with the same
file id and an identical descriptor reports a hit, and both calls return
byte-identical output. -/
theorem getCachedTransform_idempotent
    (tf : String → ImageTransformOptions → Bytes) (fileId inputPath : String)
    (o : ImageTransformOptions) (cache : CacheFS)
    (hmiss : cacheLookup cache (transformCachePath fileId o) = none) :
    (getCachedTransform tf fileId inputPath o cache).1.2 = false
  ∧ (getCachedTransform tf fileId inputPath o
      (getCachedTransform tf fileId inputPath o cache).2).1.2 = true
  ∧ (getCachedTransform tf fileId inputPath o
      (getCachedTransform tf fileId inputPath o cache).2).1.1
      = (getCachedTransform tf fileId inputPath o cache).1.1 := by
  refine ⟨?_, ?_, ?_⟩ <;> simp [getCachedTransform, hmiss, cacheLookup]

/-- Witness for C9 at a concrete descriptor and the empty cache. -/
theorem getCachedTransform_idempotent_witness :
    (getCachedTransform (fun _ _ => [7]) "f1" "p" { width := some 10 } []).1.2
      = false
  ∧ (getCachedTransform (fun _ _ => [7]) "f1" "p" { width := some 10 }
      (getCachedTransform (fun _ _ => [7]) "f1" "p" { width := some 10 } []).2).1.2
      = true
  ∧ (getCachedTransform (fun _ _ => [7]) "f1" "p" { width := some 10 }
      (getCachedTransform (fun _ _ => [7]) "f1" "p" { width := some 10 } []).2).1.1
      = (getCachedTransform (fun _ _ => [7]) "f1" "p" { width := some 10 } []).1.1 :=
  getCachedTransform_idempotent (fun _ _ => [7]) "f1" "p" { width := some 10 } [] rfl

/-- C10: `updateFile` on a present record updates exactly the fields of
the patch that are defined, leaves every other field of the record and
every other record untouched, and an `expiresAt` passed as undefined
leaves the stored expiration in place, so a set expiration can never be
cleared through `updateFile`. -/
theorem updateFile_frame (st : Store) (id : String) (u : UpdatePatch)
    (m : FileMetadata) (h : Store.lookup st id = some m) :
    ∃ m2,
      (updateFile st id u).1 = some m2
      ∧ m2.isPublic = u.isPublic.getD m.isPublic
      ∧ m2.tags = (match u.tags with | some ts => some ts | none => m.tags)
      ∧ m2.expiresAt = (match u.expiresAt with | some e => some e | none => m.expiresAt)
      ∧ m2.id = m.id ∧ m2.originalName = m.originalName
      ∧ m2.fileName = m.fileName ∧ m2.mimeType = m.mimeType
      ∧ m2.size = m.size ∧ m2.category = m.category ∧ m2.path = m.path
      ∧ m2.url = m.url ∧ m2.thumbnailUrl = m.thumbnailUrl
      ∧ m2.width = m.width ∧ m2.height = m.height
      ∧ m2.uploadedAt = m.uploadedAt ∧ m2.downloads = m.downloads
      ∧ m2.checksum = m.checksum
      ∧ Store.lookup (updateFile st id u).2 id = some m2
      ∧ (∀ k2, k2 ≠ id → Store.lookup (updateFile st id u).2 k2 = Store.lookup st k2)
      ∧ (m.expiresAt ≠ none → m2.expiresAt ≠ none) := by
  obtain ⟨up, ut, ue⟩ := u
  refine ⟨applyPatch m ⟨up, ut, ue⟩,
    by simp [updateFile, h],
    ?_, ?_, ?_, ?_, ?_, ?_, ?_, ?_, ?_, ?_, ?_, ?_, ?_, ?_, ?_, ?_, ?_,
    by simp only [updateFile, h]
       exact Store.lookup_replace_self st id _ m h,
    by intro k2 hne
       simp only [updateFile, h]
       exact Store.lookup_replace_ne st id _ k2 hne,
    ?_⟩ <;>
  cases up <;> cases ut <;> cases ue <;> simp [applyPatch]

/-- Witness for C10: toggling `isPublic` on a stored record. -/
theorem updateFile_frame_witness :
    ∃ m2,
      (updateFile [("w", sampleRec "w" "cs" (some 99))] "w"
          { isPublic := some false }).1 = some m2
      ∧ m2.isPublic = false
      ∧ m2.tags = (sampleRec "w" "cs" (some 99)).tags
      ∧ m2.expiresAt = (sampleRec "w" "cs" (some 99)).expiresAt
      ∧ m2.id = (sampleRec "w" "cs" (some 99)).id
      ∧ m2.originalName = (sampleRec "w" "cs" (some 99)).originalName
      ∧ m2.fileName = (sampleRec "w" "cs" (some 99)).fileName
      ∧ m2.mimeType = (sampleRec "w" "cs" (some 99)).mimeType
      ∧ m2.size = (sampleRec "w" "cs" (some 99)).size
      ∧ m2.category = (sampleRec "w" "cs" (some 99)).category
      ∧ m2.path = (sampleRec "w" "cs" (some 99)).path
      ∧ m2.url = (sampleRec "w" "cs" (some 99)).url
      ∧ m2.thumbnailUrl = (sampleRec "w" "cs" (some 99)).thumbnailUrl
      ∧ m2.width = (sampleRec "w" "cs" (some 99)).width
      ∧ m2.height = (sampleRec "w" "cs" (some 99)).height
      ∧ m2.uploadedAt = (sampleRec "w" "cs" (some 99)).uploadedAt
      ∧ m2.downloads = (sampleRec "w" "cs" (some 99)).downloads
      ∧ m2.checksum = (sampleRec "w" "cs" (some 99)).checksum
      ∧ Store.lookup
          (updateFile [("w", sampleRec "w" "cs" (some 99))] "w"
            { isPublic := some false }).2 "w" = some m2
      ∧ (∀ k2, k2 ≠ "w" →
          Store.lookup
            (updateFile [("w", sampleRec "w" "cs" (some 99))] "w"
              { isPublic := some false }).2 k2
            = Store.lookup [("w", sampleRec "w" "cs" (some 99))] k2)
      ∧ ((sampleRec "w" "cs" (some 99)).expiresAt ≠ none → m2.expiresAt ≠ none) :=
  updateFile_frame [("w", sampleRec "w" "cs" (some 99))] "w"
    { isPublic := some false } (sampleRec "w" "cs" (some 99)) rfl

theorem upload_ok_find (env : UploadEnv) (f : MFile) (o : UploadOptions)
    (st : Store) (m : FileMetadata)
    (h : (upload env f o st).result = Except.ok m) :
    findByChecksum (upload env f o st).store (env.chk f.bytes) = some m
      ∧ m.checksum = env.chk f.bytes := by
  by_cases hv : (validateFile (resolveMime env f) f.bytes.length).valid = false
  · simp [upload, hv] at h
  · rcases hfind : findByChecksum st (env.chk f.bytes) with _ | meta
    · simp [upload, hv, hfind] at h ⊢
      subst h
      exact ⟨findByChecksum_set_of_none st _ _ _ hfind rfl, rfl⟩
    · simp [upload, hv, hfind] at h ⊢
      subst h
      exact ⟨rfl, findByChecksum_checksum st _ _ hfind⟩

/-- C3: after a first upload returns record `m1`, a second upload of
identical bytes (same checksum function) whose validation passes returns
the same record `m1` — same id and checksum — performs no disk write and
leaves the store unchanged, so exactly one record for those bytes exists
afterwards; the empty write list shows the duplicate check fires before
any byte hits the disk. -/
theorem upload_dedup_idempotent
    (env1 env2 : UploadEnv) (f1 f2 : MFile) (o1 o2 : UploadOptions)
    (st0 : Store) (m1 : FileMetadata)
    (hchk : env2.chk = env1.chk) (hbytes : f2.bytes = f1.bytes)
    (h1 : (upload env1 f1 o1 st0).result = Except.ok m1)
    (hval : (validateFile (resolveMime env2 f2) f2.bytes.length).valid = true) :
    (upload env2 f2 o2 (upload env1 f1 o1 st0).store).result = Except.ok m1
  ∧ (upload env2 f2 o2 (upload env1 f1 o1 st0).store).store
      = (upload env1 f1 o1 st0).store
  ∧ (upload env2 f2 o2 (upload env1 f1 o1 st0).store).writes = []
  ∧ m1.checksum = env1.chk f1.bytes := by
  obtain ⟨hfind, hcs⟩ := upload_ok_find env1 f1 o1 st0 m1 h1
  have hv2 : ¬ (validateFile (resolveMime env2 f2) f2.bytes.length).valid = false := by
    rw [hval]
    simp
  have hfind2 : findByChecksum (upload env1 f1 o1 st0).store (env2.chk f2.bytes)
      = some m1 := by
    rw [hchk, hbytes]
    exact hfind
  have hmain : ∀ st1 : Store, findByChecksum st1 (env2.chk f2.bytes) = some m1 →
      (upload env2 f2 o2 st1).result = Except.ok m1
      ∧ (upload env2 f2 o2 st1).store = st1
      ∧ (upload env2 f2 o2 st1).writes = [] := by
    intro st1 hf
    refine ⟨?_, ?_, ?_⟩ <;> simp [upload, hv2, hf]
  obtain ⟨r1, r2, r3⟩ := hmain _ hfind2
  exact ⟨r1, r2, r3, hcs⟩

/-- Witness for C3: re-uploading the sample text file right after the
first upload into the empty store. -/
theorem upload_dedup_idempotent_witness :
    (upload (sampleUploadEnv "idA" "deadbeef") sampleTextFile {}
        (upload (sampleUploadEnv "idA" "deadbeef") sampleTextFile {} []).store).result
      = Except.ok firstUploadRecord
  ∧ (upload (sampleUploadEnv "idA" "deadbeef") sampleTextFile {}
        (upload (sampleUploadEnv "idA" "deadbeef") sampleTextFile {} []).store).store
      = (upload (sampleUploadEnv "idA" "deadbeef") sampleTextFile {} []).store
  ∧ (upload (sampleUploadEnv "idA" "deadbeef") sampleTextFile {}
        (upload (sampleUploadEnv "idA" "deadbeef") sampleTextFile {} []).store).writes
      = []
  ∧ firstUploadRecord.checksum = (sampleUploadEnv "idA" "deadbeef").chk sampleTextFile.bytes :=
  upload_dedup_idempotent (sampleUploadEnv "idA" "deadbeef")
    (sampleUploadEnv "idA" "deadbeef") sampleTextFile sampleTextFile {} {} []
    firstUploadRecord rfl rfl rfl rfl

theorem insertS_mem (le : FileMetadata → FileMetadata → Bool)
    (a x : FileMetadata) (l : List FileMetadata) :
    x ∈ insertS le a l ↔ x = a ∨ x ∈ l := by
  induction l with
  | nil => simp [insertS]
  | cons b bs ih =>
    by_cases hab : le a b = true
    · simp [insertS, hab]
    · simp [insertS, hab, ih]
      tauto

theorem pairwise_insertS (le : FileMetadata → FileMetadata → Bool)
    (total : ∀ a b, le a b = true ∨ le b a = true)
    (trans : ∀ a b c, le a b = true → le b c = true → le a c = true)
    (a : FileMetadata) (l : List FileMetadata)
    (h : l.Pairwise (fun x y => le x y = true)) :
    (insertS le a l).Pairwise (fun x y => le x y = true) := by
  induction l with
  | nil => simp [insertS]
  | cons b bs ih =>
    rw [List.pairwise_cons] at h
    obtain ⟨hb, hbs⟩ := h
    by_cases hab : le a b = true
    · rw [insertS, if_pos hab]
      refine List.Pairwise.cons ?_ (List.Pairwise.cons hb hbs)
      intro x hx
      rcases List.mem_cons.mp hx with rfl | hx
      · exact hab
      · exact trans a b x hab (hb x hx)
    · have hba : le b a = true := (total a b).resolve_left hab
      rw [insertS, if_neg hab]
      refine List.Pairwise.cons ?_ (ih hbs)
      intro x hx
      rcases (insertS_mem le a x bs).mp hx with rfl | hx
      · exact hba
      · exact hb x hx

theorem pairwise_insertionSort (le : FileMetadata → FileMetadata → Bool)
    (total : ∀ a b, le a b = true ∨ le b a = true)
    (trans : ∀ a b c, le a b = true → le b c = true → le a c = true)
    (l : List FileMetadata) :
    (insertionSort le l).Pairwise (fun x y => le x y = true) := by
  induction l with
  | nil => simp [insertionSort]
  | cons a as ih =>
    rw [insertionSort]
    exact pairwise_insertS le total trans a _ ih

theorem jsSortLE_total (sb : SortBy) (a b : FileMetadata) :
    jsSortLE sb a b = true ∨ jsSortLE sb b a = true := by
  cases sb <;> simp only [jsSortLE, decide_eq_true_eq] <;> exact le_total _ _

theorem jsSortLE_trans (sb : SortBy) (a b c : FileMetadata) :
    jsSortLE sb a b = true → jsSortLE sb b c = true → jsSortLE sb a c = true := by
  cases sb <;> simp only [jsSortLE, decide_eq_true_eq] <;> exact le_trans

/-- C8: `listFiles` sorts by the requested key, string keys compared
lower-cased, with `desc` flipping the ascending comparator: for `asc`
the filtered sequence is pairwise non-decreasing under the key
comparator, for `desc` pairwise non-increasing; in particular for
`sortBy = size, sortOrder = asc` every pair in the returned page
satisfies `size[i] ≤ size[j]` for `i < j` (so adjacent pairs are
non-decreasing). -/
theorem listFiles_sort_correct (p : ListFilesParams) (st : Store) :
    (p.sortOrder.getD .desc = .asc →
      (queryPipeline p st).Pairwise
        (fun a b => jsSortLE (p.sortBy.getD .uploadedAt) a b = true))
  ∧ (p.sortOrder.getD .desc = .desc →
      (queryPipeline p st).Pairwise
        (fun a b => jsSortLE (p.sortBy.getD .uploadedAt) b a = true))
  ∧ (p.sortBy = some .size → p.sortOrder = some .asc →
      (listFiles p st).files.Pairwise (fun a b => a.size ≤ b.size)) := by
  obtain ⟨pp, pl, pc, ps, psb, pso⟩ := p
  have hasc : ∀ (sb : SortBy) (l : List FileMetadata),
      (insertionSort (fun a b => jsSortLE sb a b) l).Pairwise
        (fun a b => jsSortLE sb a b = true) :=
    fun sb l => pairwise_insertionSort _
      (fun a b => jsSortLE_total sb a b)
      (fun a b c => jsSortLE_trans sb a b c) l
  have hdesc : ∀ (sb : SortBy) (l : List FileMetadata),
      (insertionSort (fun a b => jsSortLE sb b a) l).Pairwise
        (fun a b => jsSortLE sb b a = true) :=
    fun sb l => pairwise_insertionSort _
      (fun a b => jsSortLE_total sb b a)
      (fun a b c hab hbc => jsSortLE_trans sb c b a hbc hab) l
  refine ⟨?_, ?_, ?_⟩
  · intro hso
    simp only [queryPipeline]
    rw [hso]
    simp only [jsSort]
    exact hasc _ _
  · intro hso
    simp only [queryPipeline]
    rw [hso]
    simp only [jsSort]
    exact hdesc _ _
  · intro hsb hso
    subst hsb
    subst hso
    have hsorted : (queryPipeline
        { page := pp, limit := pl, category := pc, search := ps,
          sortBy := some .size, sortOrder := some .asc } st).Pairwise
        (fun a b => jsSortLE SortBy.size a b = true) := by
      simp only [queryPipeline, Option.getD, jsSort]
      exact hasc _ _
    have hsub : (((queryPipeline
          { page := pp, limit := pl, category := pc, search := ps,
            sortBy := some .size, sortOrder := some .asc } st).drop
          ((pp.getD 1 - 1) * pl.getD 20)).take (pl.getD 20)).Sublist
        (queryPipeline
          { page := pp, limit := pl, category := pc, search := ps,
            sortBy := some .size, sortOrder := some .asc } st) :=
      (List.take_sublist _ _).trans (List.drop_sublist _ _)
    have hfiles := List.Pairwise.sublist hsub hsorted
    have hfin : (listFiles
        { page := pp, limit := pl, category := pc, search := ps,
          sortBy := some .size, sortOrder := some .asc } st).files.Pairwise
        (fun a b => jsSortLE SortBy.size a b = true) := by
      simpa [listFiles] using hfiles
    exact hfin.imp (fun h => of_decide_eq_true h)

/-- Witness for C8 at a two-record store with `sortBy = size`,
`sortOrder = asc`. -/
theorem listFiles_sort_correct_witness :
    (listFiles { sortBy := some .size, sortOrder := some .asc }
        [("a", sampleRec "a" "h1" none), ("b", sampleRec "b" "h2" none)]).files.Pairwise
      (fun a b => a.size ≤ b.size) :=
  (listFiles_sort_correct { sortBy := some .size, sortOrder := some .asc }
      [("a", sampleRec "a" "h1" none), ("b", sampleRec "b" "h2" none)]).2.2 rfl rfl

theorem ceil_div_succ (k n : Nat) (hk : 0 < k) (hn : 0 < n) :
    (n + k - 1) / k = (n - k + k - 1) / k + 1 := by
  have h1 : n + k - 1 = (n - 1) + k := by omega
  rw [h1, Nat.add_div_right _ hk]
  by_cases hnk : n ≤ k
  · have h2 : n - k = 0 := by omega
    rw [h2]
    have h3 : (0 + k - 1) / k = 0 := Nat.div_eq_of_lt (by omega)
    have h4 : (n - 1) / k = 0 := Nat.div_eq_of_lt (by omega)
    rw [h3, h4]
  · have h5 : n - k + k - 1 = (n - k - 1) + k := by omega
    rw [h5, Nat.add_div_right _ hk]
    have h6 : n - 1 = (n - k - 1) + k := by omega
    rw [h6, Nat.add_div_right _ hk]

theorem ceil_div_mul_ge (k n : Nat) (hk : 0 < k) :
    n ≤ ((n + k - 1) / k) * k := by
  rcases Nat.eq_zero_or_pos n with hn | hn
  · subst hn
    simp
  · have h1 : n + k - 1 = (n - 1) + k := by omega
    rw [h1, Nat.add_div_right _ hk]
    have h2 := Nat.div_add_mod (n - 1) k
    have h3 : (n - 1) % k < k := Nat.mod_lt _ hk
    have h5 : (n - 1) % k + 1 ≤ k := h3
    calc n = n - 1 + 1 := by omega
      _ = k * ((n - 1) / k) + (n - 1) % k + 1 := by rw [h2]
      _ = k * ((n - 1) / k) + ((n - 1) % k + 1) := by rw [Nat.add_assoc]
      _ ≤ k * ((n - 1) / k) + k := Nat.add_le_add_left h5 _
      _ = ((n - 1) / k + 1) * k := by ring

theorem chunks_join {α : Type} (k : Nat) (hk : 0 < k) :
    ∀ (n : Nat) (l : List α), l.length ≤ n →
      (List.range ((l.length + k - 1) / k)).flatMap
        (fun i => (l.drop (i * k)).take k) = l := by
  intro n
  induction n with
  | zero =>
    intro l hl
    have hnil : l = [] := List.length_eq_zero.mp (Nat.le_zero.mp hl)
    subst hnil
    simp [Nat.div_eq_of_lt (by omega : k - 1 < k)]
  | succ n ih =>
    intro l hl
    rcases l with _ | ⟨a, as⟩
    · simp [Nat.div_eq_of_lt (by omega : k - 1 < k)]
    · have hlen : 0 < (a :: as).length := by simp
      rw [ceil_div_succ k _ hk hlen, List.range_succ_eq_map, List.flatMap_cons,
        List.flatMap_map]
      have hfun : ∀ i : Nat, (a :: as).drop (Nat.succ i * k)
          = ((a :: as).drop k).drop (i * k) := by
        intro i
        rw [List.drop_drop, Nat.succ_mul, Nat.add_comm]
      simp only [hfun, Nat.zero_mul, List.drop_zero]
      have hlen2 : ((a :: as).drop k).length ≤ n := by
        rw [List.length_drop]
        simp only [List.length_cons] at hl ⊢
        omega
      have hend := ih ((a :: as).drop k) hlen2
      rw [List.length_drop] at hend
      rw [hend]
      exact List.take_append_drop k (a :: as)

theorem queryPipeline_page_irrel (p : ListFilesParams) (v : Option Nat)
    (st : Store) :
    queryPipeline { p with page := v } st = queryPipeline p st := rfl

/-- C7: with `limit > 0`, `listFiles` reports
`totalPages = ceil(total / limit)` over the filtered and sorted
sequence, every page holds at most `limit` records, a page number beyond
`totalPages` yields the empty list rather than an error, and
concatenating the pages 1 .. totalPages in order reproduces the whole
filtered and sorted sequence with no duplicates or omissions. -/
theorem listFiles_pagination_invariant (p : ListFilesParams) (st : Store)
    (page limit : Nat) (hp : p.page = some page) (hl : p.limit = some limit)
    (hpos : 0 < limit) :
    (listFiles p st).totalPages
      = ((queryPipeline p st).length + limit - 1) / limit
  ∧ (listFiles p st).files.length ≤ limit
  ∧ ((listFiles p st).totalPages < page → (listFiles p st).files = [])
  ∧ (List.range (listFiles p st).totalPages).flatMap
      (fun i => (listFiles { p with page := some (i + 1) } st).files)
      = queryPipeline p st := by
  refine ⟨?_, ?_, ?_, ?_⟩
  · simp [listFiles, hl]
  · simp only [listFiles, hl, Option.getD_some]
    exact List.length_take_le _ _
  · intro hlt
    simp only [listFiles, hp, hl, Option.getD_some] at hlt ⊢
    have h2 := ceil_div_mul_ge limit (queryPipeline p st).length hpos
    have h3 : ((queryPipeline p st).length + limit - 1) / limit ≤ page - 1 :=
      Nat.le_sub_one_of_lt hlt
    have h4 : (queryPipeline p st).length ≤ (page - 1) * limit :=
      le_trans h2 (Nat.mul_le_mul_right _ h3)
    rw [List.drop_eq_nil_of_le h4, List.take_nil]
  · simp only [listFiles, queryPipeline_page_irrel, hp, hl, Option.getD_some,
      Nat.add_sub_cancel]
    exact chunks_join limit hpos (queryPipeline p st).length (queryPipeline p st)
      le_rfl

/-- Witness for C7 at a three-record store with pages of two records. -/
theorem listFiles_pagination_invariant_witness :
    (listFiles { page := some 1, limit := some 2 } pagStore).totalPages
      = ((queryPipeline { page := some 1, limit := some 2 } pagStore).length + 2 - 1) / 2
  ∧ (listFiles { page := some 1, limit := some 2 } pagStore).files.length ≤ 2
  ∧ ((listFiles { page := some 1, limit := some 2 } pagStore).totalPages < 1 →
      (listFiles { page := some 1, limit := some 2 } pagStore).files = [])
  ∧ (List.range (listFiles { page := some 1, limit := some 2 } pagStore).totalPages).flatMap
      (fun i => (listFiles { page := some (i + 1), limit := some 2 } pagStore).files)
      = queryPipeline { page := some 1, limit := some 2 } pagStore :=
  listFiles_pagination_invariant { page := some 1, limit := some 2 } pagStore
    1 2 rfl rfl (by decide)

theorem keyMem_iff (k : String) (l : List String) :
    keyMem k l = true ↔ k ∈ l := by
  induction l with
  | nil => simp [keyMem]
  | cons x xs ih =>
    by_cases hx : x = k
    · simp [keyMem, hx]
    · have hx2 : ¬ k = x := fun he => hx he.symm
      simp [keyMem, hx, hx2, ih]

theorem filter_eraseKey (s : Store) (k : String)
    (P : String × FileMetadata → Bool) :
    (Store.eraseKey s k).filter P
      = s.filter (fun kv => if k = kv.1 then false else P kv) := by
  induction s with
  | nil => rfl
  | cons kv rest ih =>
    by_cases hk : kv.1 = k
    · rw [Store.eraseKey, if_pos hk, List.filter_cons, ih, if_pos hk.symm]
      simp
    · have hk2 : ¬ k = kv.1 := fun he => hk he.symm
      rw [Store.eraseKey, if_neg hk, List.filter_cons, List.filter_cons, ih,
        if_neg hk2]

theorem cleanupLoop_spec (env : DiskEnv) (now : Nat) :
    ∀ (l : List (String × FileMetadata)) (s : Store) (n : Nat),
      (∀ kv ∈ l, Store.lookup s kv.1 = some kv.2) →
      (∀ kv ∈ l, isExpired now kv.2 = true → env.unlinkOk kv.2.path = true) →
      (l.map Prod.fst).Nodup →
      cleanupLoop env now l (n, s)
        = (n + l.countP (fun kv => isExpired now kv.2),
           s.filter (fun kv => !(keyMem kv.1 (expiredKeys now l)))) := by
  intro l
  induction l with
  | nil =>
    intro s n hin hok hnd
    simp [cleanupLoop, expiredKeys, keyMem]
  | cons kv rest ih =>
    intro s n hin hok hnd
    simp only [List.map_cons, List.nodup_cons] at hnd
    obtain ⟨hnotin, hnd2⟩ := hnd
    have hkvin : Store.lookup s kv.1 = some kv.2 :=
      hin kv (List.mem_cons_self kv rest)
    have hok2 : ∀ kv2 ∈ rest, isExpired now kv2.2 = true →
        env.unlinkOk kv2.2.path = true :=
      fun kv2 hm => hok kv2 (List.mem_cons_of_mem _ hm)
    by_cases hexp : isExpired now kv.2 = true
    · have hok1 : env.unlinkOk kv.2.path = true :=
        hok kv (List.mem_cons_self _ _) hexp
      have hdel : deleteFile env s kv.1 = (true, Store.eraseKey s kv.1) := by
        simp [deleteFile, hkvin, hok1]
      rw [cleanupLoop, if_pos hexp, hdel]
      have hin2 : ∀ kv2 ∈ rest,
          Store.lookup (Store.eraseKey s kv.1) kv2.1 = some kv2.2 := by
        intro kv2 hm
        have hne : kv2.1 ≠ kv.1 := by
          intro he
          exact hnotin (he ▸ List.mem_map_of_mem Prod.fst hm)
        rw [Store.lookup_eraseKey_ne s kv.1 kv2.1 hne]
        exact hin kv2 (List.mem_cons_of_mem _ hm)
      rw [ih (Store.eraseKey s kv.1) (n + 1) hin2 hok2 hnd2]
      have hek : expiredKeys now (kv :: rest)
          = kv.1 :: expiredKeys now rest := by
        simp [expiredKeys, List.filter_cons, hexp]
      have hpred : (fun kv2 : String × FileMetadata =>
            !keyMem kv2.1 (kv.1 :: expiredKeys now rest))
          = (fun kv2 => if kv.1 = kv2.1 then false
              else !keyMem kv2.1 (expiredKeys now rest)) := by
        funext x
        by_cases h : kv.1 = x.1 <;> simp [keyMem, h]
      rw [hek, hpred, ← filter_eraseKey]
      congr 1
      simp only [List.countP_cons, hexp, if_true, eq_self_iff_true]
      omega
    · rw [cleanupLoop, if_neg hexp]
      have hexp2 : isExpired now kv.2 = false := by
        revert hexp
        cases isExpired now kv.2 <;> simp
      have hin2 : ∀ kv2 ∈ rest, Store.lookup s kv2.1 = some kv2.2 :=
        fun kv2 hm => hin kv2 (List.mem_cons_of_mem _ hm)
      rw [ih s n hin2 hok2 hnd2]
      have hek : expiredKeys now (kv :: rest) = expiredKeys now rest := by
        simp [expiredKeys, List.filter_cons, hexp2]
      rw [hek]
      congr 1
      simp [List.countP_cons, hexp2]

/-- C5: under a store with distinct keys whose expired records can all
be unlinked, the sweep `cleanupExpired` — which walks every record and
deletes the expired ones through the same `deleteFile` path as an
explicit delete — returns exactly the number of expired records and
leaves the store holding exactly the live records, in order. -/
theorem cleanupExpired_correct (env : DiskEnv) (now : Nat) (st : Store)
    (hnd : (st.map Prod.fst).Nodup)
    (hok : ∀ kv ∈ st, isExpired now kv.2 = true →
      env.unlinkOk kv.2.path = true) :
    cleanupExpired env now st
      = (st.countP (fun kv => isExpired now kv.2),
         st.filter (fun kv => !(isExpired now kv.2))) := by
  have hin : ∀ kv ∈ st, Store.lookup st kv.1 = some kv.2 :=
    fun kv hm => Store.lookup_of_mem st hnd kv hm
  rw [cleanupExpired, cleanupLoop_spec env now st st 0 hin hok hnd]
  have hpt : ∀ kv ∈ st,
      (!(keyMem kv.1 (expiredKeys now st))) = !(isExpired now kv.2) := by
    intro kv hm
    congr 1
    by_cases hexp : isExpired now kv.2 = true
    · rw [hexp]
      exact (keyMem_iff _ _).mpr
        (List.mem_map_of_mem Prod.fst (List.mem_filter.mpr ⟨hm, hexp⟩))
    · have hexp2 : isExpired now kv.2 = false := by
        revert hexp
        cases isExpired now kv.2 <;> simp
      rw [hexp2]
      rw [keyMem_eq_false_iff]
      intro hmem
      obtain ⟨kv2, hkv2m, hkv2e⟩ := List.mem_map.mp hmem
      obtain ⟨hin2, hexp3⟩ := List.mem_filter.mp hkv2m
      have hkk : kv2 = kv :=
        Store.mem_of_key_distinct st hnd kv2 kv hin2 hm hkv2e
      rw [hkk] at hexp3
      exact hexp hexp3
  rw [List.filter_congr hpt, Nat.zero_add]

/-- Witness for C5 at a two-record store with one expired record, all
unlinks succeeding. -/
theorem cleanupExpired_correct_witness :
    cleanupExpired allUnlinkOk 10
        [("a", sampleRec "a" "e1" (some 5)), ("b", sampleRec "b" "e2" none)]
      = ([("a", sampleRec "a" "e1" (some 5)),
          ("b", sampleRec "b" "e2" none)].countP
           (fun kv => isExpired 10 kv.2),
         [("a", sampleRec "a" "e1" (some 5)),
          ("b", sampleRec "b" "e2" none)].filter
           (fun kv => !(isExpired 10 kv.2))) :=
  cleanupExpired_correct allUnlinkOk 10
    [("a", sampleRec "a" "e1" (some 5)), ("b", sampleRec "b" "e2" none)]
    (by decide) (by decide)

end Elysia
